import Mathlib

/-!
Shallow embedding of the Ostium trader-performance SP1 guest program
(src/sp1/program/src/main.rs) and the host-side public-value decoder
(src/sp1/script/src/main.rs).

Strings are modelled as lists of UTF-8 bytes (`List Nat`, each entry < 256
for well-formed input); Rust machine integers are modelled as `Nat` / `Int`
with explicit reduction modulo 2^w at every operation where the Rust type
is wrapped (release-profile wrapping semantics of the zkVM guest), and
panics (string-slice bounds, division by zero, division overflow) are
modelled as `Option.none`.
-/

namespace Ostium

/-- A Rust string, viewed as its UTF-8 byte sequence. -/
abbrev ByteStr := List Nat

/-- Byte sequence of an ASCII string literal (one byte per character). -/
def ascii (s : String) : ByteStr := s.data.map Char.toNat

/-! ## Rust numeric parsing (`str::parse`, `u8::from_str_radix`) -/

/-- `char::to_digit` restricted to one UTF-8 byte: the value of `b` as a
digit in base `radix`, if it is one. -/
def digitVal (radix b : Nat) : Option Nat :=
  let v : Option Nat :=
    if 48 ≤ b ∧ b ≤ 57 then some (b - 48)
    else if 97 ≤ b ∧ b ≤ 122 then some (b - 87)
    else if 65 ≤ b ∧ b ≤ 90 then some (b - 55)
    else none
  match v with
  | some d => if d < radix then some d else none
  | none => none

/-- The digit-accumulation loop of Rust's `from_str_radix`: checked
multiply-and-add over the digit bytes, failing on a non-digit byte or when
the accumulator would exceed `max` (the width's maximum value). -/
def parseDigits (radix max : Nat) : ByteStr → Nat → Option Nat
  | [], acc => some acc
  | b :: rest, acc =>
    match digitVal radix b with
    | none => none
    | some d =>
      let v := acc * radix + d
      if v ≤ max then parseDigits radix max rest v else none

/-- Strip one leading `+` sign (byte 43), as Rust's unsigned
`from_str_radix` does before the digit loop. -/
def stripPlus (s : ByteStr) : ByteStr :=
  match s with
  | 43 :: rest => rest
  | other => other

/-- Rust `from_str_radix` for an unsigned integer type with maximum value
`max`: an optional leading `+` (byte 43) is accepted, a leading `-` or an
empty digit sequence is rejected, then digits accumulate with overflow
checks. -/
def parseUintRadix (radix max : Nat) (s : ByteStr) : Option Nat :=
  match stripPlus s with
  | [] => none
  | d :: ds => parseDigits radix max (d :: ds) 0

/-- Maximum value of `u128`. -/
def U128MAX : Nat := 2 ^ 128 - 1

/-- Maximum value of `u64`. -/
def U64MAX : Nat := 2 ^ 64 - 1

/-- `fn parse_u128(s: &str) -> u128 { s.parse::<u128>().unwrap_or(0) }` -/
def parse_u128 (s : ByteStr) : Nat := (parseUintRadix 10 U128MAX s).getD 0

/-- `fn parse_u64(s: &str) -> u64 { s.parse::<u64>().unwrap_or(0) }` -/
def parse_u64 (s : ByteStr) : Nat := (parseUintRadix 10 U64MAX s).getD 0

/-! ## Address decoding -/

/-- Rust `str::is_char_boundary` on the byte sequence: position 0, the end
position, or any position holding a byte that is not a UTF-8 continuation
byte (i.e. not in `0x80..0xBF`). -/
def isCharBoundary (s : ByteStr) (i : Nat) : Prop :=
  i = 0 ∨ i = s.length ∨ (i < s.length ∧ (s.getD i 0 < 128 ∨ 192 ≤ s.getD i 0))

instance (s : ByteStr) (i : Nat) : Decidable (isCharBoundary s i) := by
  unfold isCharBoundary; infer_instance

/-- Rust string slicing `s[a..b]`: `some` slice when the range is in bounds
and both endpoints are char boundaries, `none` (panic) otherwise. -/
def strSlice (s : ByteStr) (a b : Nat) : Option ByteStr :=
  if a ≤ b ∧ b ≤ s.length ∧ isCharBoundary s a ∧ isCharBoundary s b then
    some ((s.drop a).take (b - a))
  else none

/-- `addr.strip_prefix("0x").unwrap_or(addr)`: drop a leading `0x`
(bytes 48, 120) when present. -/
def strip0x (addr : ByteStr) : ByteStr :=
  match addr with
  | 48 :: 120 :: rest => rest
  | other => other

/-- One byte of the address: `u8::from_str_radix(byte_hex, 16).unwrap_or(0)`. -/
def hexPairByte (pair : ByteStr) : Nat := (parseUintRadix 16 255 pair).getD 0

/--
`fn decode_address(addr: &str) -> [u8; 20]`: strip an optional `0x`, then
for `i` in `0..20` decode the slice `hex[2*i..2*i+2]` as one hex byte,
invalid pairs yielding 0. An out-of-bounds (or non-boundary) slice panics,
modelled as `none`.
-/
def decode_address (addr : ByteStr) : Option ByteStr :=
  let hex := strip0x addr
  (List.range 20).mapM fun i => (strSlice hex (2 * i) (2 * i + 2)).map hexPairByte

/-! ## Fixed-width wrapping arithmetic -/

/-- Reduce to `u32` (wrapping). -/
def wrap32 (n : Nat) : Nat := n % 2 ^ 32

/-- Reduce to `u64` (wrapping). -/
def wrap64 (n : Nat) : Nat := n % 2 ^ 64

/-- Reinterpret the low 64 bits of an integer as a signed `i64`
(Rust `as i64` cast / wrapping arithmetic on `i64`). -/
def toI64 (v : Int) : Int :=
  let m := v % (2 ^ 64 : Int)
  if m < 2 ^ 63 then m else m - 2 ^ 64

/-- Reinterpret the low 128 bits of an integer as a signed `i128`
(wrapping arithmetic on `i128`). -/
def toI128 (v : Int) : Int :=
  let m := v % (2 ^ 128 : Int)
  if m < 2 ^ 127 then m else m - 2 ^ 128

/-- Rust `as i128` cast of a `u128` value: two's-complement reinterpret. -/
def u128AsI128 (n : Nat) : Int :=
  if n < 2 ^ 127 then (n : Int) else (n : Int) - 2 ^ 128

/-- Rust `i128` division: truncating toward zero; panics (`none`) on a zero
divisor or on the overflowing case `i128::MIN / -1`. -/
def i128Div (a b : Int) : Option Int :=
  if b = 0 ∨ (a = -(2 ^ 127) ∧ b = -1) then none else some (a.tdiv b)

/-- Rust release-mode `i64::abs` (wraps on `i64::MIN`). -/
def absI64 (v : Int) : Int := toI64 |v|

/-! ## Input data model -/

/-- A single closed trade from the Ostium subgraph (all numeric fields are
decimal-digit strings). -/
structure Trade where
  trader : ByteStr
  is_buy : Bool
  collateral : ByteStr
  leverage : ByteStr
  open_price : ByteStr
  close_price : ByteStr
  timestamp : ByteStr
  funding : ByteStr
  rollover : ByteStr

/-- The featured open position being listed as alpha. -/
structure FeaturedPosition where
  trader : ByteStr
  trade_id : Nat
  pair_index : Nat
  is_buy : Bool
  leverage : ByteStr
  collateral : ByteStr
  entry_price : ByteStr
  is_open : Bool
  timestamp : ByteStr

/-! ## Aggregator (Part 1 of `main`) -/

/-- The aggregate accumulator state of the trade loop in `main`. -/
structure AggState where
  trade_count : Nat
  win_count : Nat
  total_pnl_micros : Int
  total_collateral_micros : Nat
  start_timestamp : Nat
  end_timestamp : Nat
  trader_bytes : ByteStr
deriving DecidableEq, Repr

/-- The price-difference intermediate: `close as i128 - open as i128` for a
buy, `open as i128 - close as i128` for a sell, with `i128` wrapping. -/
def priceDiff (t : Trade) : Int :=
  let op := u128AsI128 (parse_u128 t.open_price)
  let cp := u128AsI128 (parse_u128 t.close_price)
  if t.is_buy then toI128 (cp - op) else toI128 (op - cp)

/-- The guarded price-PnL computation of one trade: zero if the open price
parses to zero, otherwise
`((collateral as i128 * leverage as i128 * price_diff) / (open_price as i128 * 100)) as i64`
with `i128` wrapping multiplications and a possibly panicking division. -/
def tradePnlPrice (t : Trade) : Option Int :=
  let open_price := parse_u128 t.open_price
  if open_price > 0 then
    let numerator :=
      toI128 (toI128 (u128AsI128 (parse_u128 t.collateral) *
        u128AsI128 (parse_u128 t.leverage)) * priceDiff t)
    let denominator := toI128 (u128AsI128 open_price * 100)
    (i128Div numerator denominator).map toI64
  else some 0

/-- `(parse_u128(s) / 1_000_000_000_000) as i64` for the funding and
rollover fields. -/
def feeMicros (s : ByteStr) : Int :=
  toI64 ((parse_u128 s / 1000000000000 : Nat) : Int)

/-- Fee-adjusted PnL of one trade:
`trade_pnl_micros -= funding_micros.abs() + rollover_micros.abs()`
with wrapping `i64` arithmetic. -/
def tradePnlMicros (t : Trade) : Option Int :=
  (tradePnlPrice t).map fun p =>
    toI64 (p - toI64 (absI64 (feeMicros t.funding) + absI64 (feeMicros t.rollover)))

/-- One iteration of the trade loop in `main`. -/
def processTrade (st : AggState) (t : Trade) : Option AggState := do
  let trader_bytes ←
    if st.trade_count = 0 then decode_address t.trader else some st.trader_bytes
  let trade_count := wrap32 (st.trade_count + 1)
  let collateral_micros := parse_u128 t.collateral
  let total_collateral_micros :=
    wrap64 (st.total_collateral_micros + wrap64 collateral_micros)
  let trade_pnl_micros ← tradePnlMicros t
  let total_pnl_micros := toI64 (st.total_pnl_micros + trade_pnl_micros)
  let win_count := if trade_pnl_micros > 0 then wrap32 (st.win_count + 1) else st.win_count
  let ts := parse_u64 t.timestamp
  let start_timestamp := if ts < st.start_timestamp then ts else st.start_timestamp
  let end_timestamp := if ts > st.end_timestamp then ts else st.end_timestamp
  pure {
    trade_count := trade_count
    win_count := win_count
    total_pnl_micros := total_pnl_micros
    total_collateral_micros := total_collateral_micros
    start_timestamp := start_timestamp
    end_timestamp := end_timestamp
    trader_bytes := trader_bytes }

/-- Initial accumulator state (`start_timestamp = u64::MAX` sentinel). -/
def initState : AggState :=
  { trade_count := 0
    win_count := 0
    total_pnl_micros := 0
    total_collateral_micros := 0
    start_timestamp := U64MAX
    end_timestamp := 0
    trader_bytes := List.replicate 20 0 }

/-- The whole aggregation phase of `main`: fold the trade loop, then the
empty-input fixups (reset `start_timestamp` to 0, trader identity from the
featured position). -/
def aggregate (trades : List Trade) (featured : FeaturedPosition) :
    Option AggState := do
  let st ← trades.foldlM processTrade initState
  if trades.isEmpty then
    let tb ← decode_address featured.trader
    pure { st with start_timestamp := 0, trader_bytes := tb }
  else
    pure st

/-! ## Featured-position encoding (Part 2 of `main`) -/

/-- The committed featured-position fields of `main` (booleans already
mapped to 0/1 bytes, leverage cast `as u32`, collateral cast `as u64`). -/
structure FeaturedResult where
  trade_id : Nat
  pair_index : Nat
  is_buy : Nat
  leverage : Nat
  collateral : Nat
  entry_price : Nat
  is_open : Nat
  timestamp : Nat
deriving DecidableEq, Repr

/-- Part 2 of `main`: normalize the featured position's fields. -/
def encodeFeatured (f : FeaturedPosition) : FeaturedResult :=
  { trade_id := f.trade_id
    pair_index := f.pair_index
    is_buy := if f.is_buy then 1 else 0
    leverage := wrap32 (parse_u128 f.leverage)
    collateral := wrap64 (parse_u128 f.collateral)
    entry_price := parse_u128 f.entry_price
    is_open := if f.is_open then 1 else 0
    timestamp := parse_u64 f.timestamp }

/-! ## Binary commitment encoding (`to_be_bytes` / `commit_slice`) -/

/-- Big-endian byte sequence of width `w` bytes for an unsigned value
(`to_be_bytes`): most significant byte first. -/
def toBeBytes : Nat → Nat → ByteStr
  | 0, _ => []
  | w + 1, v => v / 2 ^ (8 * w) % 256 :: toBeBytes w v

/-- `i64::to_be_bytes`: the two's-complement bit pattern, big-endian. -/
def i64BeBytes (v : Int) : ByteStr := toBeBytes 8 (v % (2 ^ 64 : Int)).toNat

/--
The committed public-value buffer of `main`: the concatenation of the
`commit_slice` calls, 60 aggregate bytes followed by 50 featured bytes.
-/
def commitPublicValues (a : AggState) (f : FeaturedResult) : ByteStr :=
  a.trader_bytes ++
  (toBeBytes 4 a.trade_count ++
  (toBeBytes 4 a.win_count ++
  (i64BeBytes a.total_pnl_micros ++
  (toBeBytes 8 a.total_collateral_micros ++
  (toBeBytes 8 a.start_timestamp ++
  (toBeBytes 8 a.end_timestamp ++
  (toBeBytes 8 f.trade_id ++
  (toBeBytes 4 f.pair_index ++
  ([f.is_buy] ++
  (toBeBytes 4 f.leverage ++
  (toBeBytes 8 f.collateral ++
  (toBeBytes 16 f.entry_price ++
  ([f.is_open] ++
  toBeBytes 8 f.timestamp)))))))))))))

/-! ## Host-side decoding (`decode_public_values` in the script) -/

/-- `uN::from_be_bytes`: big-endian byte list to unsigned value. -/
def fromBeBytes (l : ByteStr) : Nat := l.foldl (fun acc b => acc * 256 + b) 0

/-- `i64::from_be_bytes`: big-endian bytes to the signed value. -/
def i64FromBeBytes (l : ByteStr) : Int :=
  if fromBeBytes l < 2 ^ 63 then (fromBeBytes l : Int)
  else (fromBeBytes l : Int) - 2 ^ 64

/-- The byte-range read `bytes[off..off+len]` used by the decoder. -/
def byteRange (bytes : ByteStr) (off len : Nat) : ByteStr :=
  (bytes.drop off).take len

/-- The integer fields extracted by the host's `decode_public_values`
(before the display-only floating-point rescaling). -/
structure DecodedValues where
  trader : ByteStr
  trade_count : Nat
  win_count : Nat
  total_pnl_micros : Int
  total_collateral_micros : Nat
  start_timestamp : Nat
  end_timestamp : Nat
  featured_trade_id : Nat
  featured_pair_index : Nat
  featured_is_buy : Bool
  featured_leverage : Nat
  featured_collateral_micros : Nat
  featured_entry_price : Nat
  featured_is_open : Bool
  featured_timestamp : Nat
deriving DecidableEq, Repr

/--
`fn decode_public_values(bytes: &[u8])` of the host script: asserts at
least 110 bytes (`none` models the assertion failure, with no partial
decode), then reads each field at its fixed big-endian offset.
-/
def decode_public_values (bytes : ByteStr) : Option DecodedValues :=
  if bytes.length < 110 then none
  else some {
    trader := byteRange bytes 0 20
    trade_count := fromBeBytes (byteRange bytes 20 4)
    win_count := fromBeBytes (byteRange bytes 24 4)
    total_pnl_micros := i64FromBeBytes (byteRange bytes 28 8)
    total_collateral_micros := fromBeBytes (byteRange bytes 36 8)
    start_timestamp := fromBeBytes (byteRange bytes 44 8)
    end_timestamp := fromBeBytes (byteRange bytes 52 8)
    featured_trade_id := fromBeBytes (byteRange bytes 60 8)
    featured_pair_index := fromBeBytes (byteRange bytes 68 4)
    featured_is_buy := bytes.getD 72 0 = 1
    featured_leverage := fromBeBytes (byteRange bytes 73 4)
    featured_collateral_micros := fromBeBytes (byteRange bytes 77 8)
    featured_entry_price := fromBeBytes (byteRange bytes 85 16)
    featured_is_open := bytes.getD 101 0 = 1
    featured_timestamp := fromBeBytes (byteRange bytes 102 8) }

/-! ## Specification-side helper notions (for stating properties) -/

/-- A decimal digit byte (`0`–`9`). -/
def isDigitByte (b : Nat) : Prop := 48 ≤ b ∧ b ≤ 57

instance (b : Nat) : Decidable (isDigitByte b) := by
  unfold isDigitByte; infer_instance

/-- The numeric value of a big-endian sequence of decimal digit bytes. -/
def decimalVal : ByteStr → Nat
  | [] => 0
  | b :: rest => (b - 48) * 10 ^ rest.length + decimalVal rest

/-- Exact (unbounded-integer) price difference of a trade:
`close − open` for a buy, `open − close` for a sell. -/
def exactPriceDiff (t : Trade) : Int :=
  if t.is_buy then
    (parse_u128 t.close_price : Int) - (parse_u128 t.open_price : Int)
  else
    (parse_u128 t.open_price : Int) - (parse_u128 t.close_price : Int)

/-- Exact (unbounded-integer) fee-adjusted PnL of a trade, following the
spec's aggregation description with mathematical integers: the truncating
price-PnL quotient (zero when the open price is zero) minus the rescaled
funding and rollover magnitudes. -/
def exactTradePnl (t : Trade) : Int :=
  (if 0 < parse_u128 t.open_price then
    Int.tdiv
      ((parse_u128 t.collateral : Int) * (parse_u128 t.leverage : Int) *
        exactPriceDiff t)
      ((parse_u128 t.open_price : Int) * 100)
  else 0)
  - ((parse_u128 t.funding / 1000000000000 : Nat) : Int)
  - ((parse_u128 t.rollover / 1000000000000 : Nat) : Int)

/-- All intermediates of one trade's PnL computation fit their machine
types: both 128-bit cast operands, the two-step numerator product, the
denominator, the 64-bit quotient cast, the rescaled fees, and the
fee-adjusted result. -/
def TradeFits (t : Trade) : Prop :=
  parse_u128 t.collateral < 2 ^ 127 ∧
  parse_u128 t.leverage < 2 ^ 127 ∧
  parse_u128 t.close_price < 2 ^ 127 ∧
  parse_u128 t.collateral * parse_u128 t.leverage < 2 ^ 127 ∧
  parse_u128 t.open_price * 100 < 2 ^ 127 ∧
  parse_u128 t.collateral * parse_u128 t.leverage * (exactPriceDiff t).natAbs
    < 2 ^ 127 ∧
  (parse_u128 t.collateral * parse_u128 t.leverage * (exactPriceDiff t).natAbs)
    / (parse_u128 t.open_price * 100) < 2 ^ 63 ∧
  parse_u128 t.funding / 1000000000000 +
    parse_u128 t.rollover / 1000000000000 < 2 ^ 63 ∧
  (exactTradePnl t).natAbs < 2 ^ 63

instance (t : Trade) : Decidable (TradeFits t) := by
  unfold TradeFits; infer_instance

/-- Range well-formedness of an aggregate result: every field fits the
machine type it is committed as. -/
def AggWF (a : AggState) : Prop :=
  a.trader_bytes.length = 20 ∧
  a.trade_count < 2 ^ 32 ∧
  a.win_count < 2 ^ 32 ∧
  -(2 ^ 63) ≤ a.total_pnl_micros ∧ a.total_pnl_micros < 2 ^ 63 ∧
  a.total_collateral_micros < 2 ^ 64 ∧
  a.start_timestamp < 2 ^ 64 ∧
  a.end_timestamp < 2 ^ 64

instance (a : AggState) : Decidable (AggWF a) := by
  unfold AggWF; infer_instance

/-- Range well-formedness of a featured result: every field fits the
machine type it is committed as. -/
def FeatWF (f : FeaturedResult) : Prop :=
  f.trade_id < 2 ^ 64 ∧
  f.pair_index < 2 ^ 32 ∧
  f.is_buy < 2 ^ 8 ∧
  f.leverage < 2 ^ 32 ∧
  f.collateral < 2 ^ 64 ∧
  f.entry_price < 2 ^ 128 ∧
  f.is_open < 2 ^ 8 ∧
  f.timestamp < 2 ^ 64

instance (f : FeaturedResult) : Decidable (FeatWF f) := by
  unfold FeatWF; infer_instance

/-! ## Concrete example inputs -/

/-- The worked example of the spec: one buy trade, 100 USDC collateral,
50.00× leverage, open price 1.0, close price 1.01, no fees. -/
def exTrade : Trade :=
  { trader := ascii "0x1111111111111111111111111111111111111111"
    is_buy := true
    collateral := ascii "100000000"
    leverage := ascii "5000"
    open_price := ascii "1000000000000000000"
    close_price := ascii "1010000000000000000"
    timestamp := ascii "1700000000"
    funding := ascii "0"
    rollover := ascii "0" }

/-- A concrete featured position. -/
def exFeat : FeaturedPosition :=
  { trader := ascii "0x2222222222222222222222222222222222222222"
    trade_id := 7
    pair_index := 3
    is_buy := true
    leverage := ascii "500"
    collateral := ascii "250000000"
    entry_price := ascii "2000000000000000000"
    is_open := true
    timestamp := ascii "1700000001" }

/-- The aggregate state produced by running the single worked-example
trade. -/
def exAggSt : AggState :=
  { trade_count := 1
    win_count := 1
    total_pnl_micros := 50000000
    total_collateral_micros := 100000000
    start_timestamp := 1700000000
    end_timestamp := 1700000000
    trader_bytes := List.replicate 20 17 }

/-- A trade whose open price is zero but whose funding field rescales to
one micro-USDC. -/
def zeroOpenTrade : Trade :=
  { exTrade with open_price := ascii "0", funding := ascii "1000000000000" }

/-- A trade with `u64::MAX` collateral (and a zero open price, so the PnL
path is inert). -/
def bigCollTrade : Trade :=
  { exTrade with collateral := ascii "18446744073709551615"
                 open_price := ascii "0" }

/-- A featured position whose leverage and collateral strings exceed the
32-bit and 64-bit target widths by one. -/
def bigFeat : FeaturedPosition :=
  { exFeat with leverage := ascii "4294967297"
                collateral := ascii "18446744073709551617" }

/-- A fee-free losing-side filler trade (zero open price, zero fees, zero
collateral) whose timestamp matches the worked example's. -/
def fillerTrade : Trade :=
  { exTrade with collateral := ascii "0"
                 open_price := ascii "0"
                 funding := ascii "0"
                 rollover := ascii "0" }

/-- A batch of `2^32` trades: the worked example followed by `2^32 - 1`
filler trades. -/
def hugeBatch : List Trade := exTrade :: List.replicate (2 ^ 32 - 1) fillerTrade

/-! ## Parsing lemmas -/

theorem digitVal_ten (b : Nat) :
    digitVal 10 b = if isDigitByte b then some (b - 48) else none := by
  unfold digitVal isDigitByte
  split_ifs <;> simp_all <;> omega

theorem parseDigits_le (radix max : Nat) (l : ByteStr) :
    ∀ acc, acc ≤ max → ∀ v, parseDigits radix max l acc = some v → v ≤ max := by
  induction l with
  | nil => intro acc hacc v h; simp [parseDigits] at h; omega
  | cons b rest ih =>
    intro acc hacc v h
    simp only [parseDigits] at h
    rcases hd : digitVal radix b with _ | d
    · rw [hd] at h; exact absurd h (by simp)
    · rw [hd] at h
      simp only [] at h
      by_cases hle : acc * radix + d ≤ max
      · rw [if_pos hle] at h; exact ih _ hle v h
      · rw [if_neg hle] at h; exact absurd h (by simp)

theorem parseDigits_nonDigit (max : Nat) (l : ByteStr) (b : Nat)
    (hb : b ∈ l) (hnd : ¬ isDigitByte b) :
    ∀ acc, parseDigits 10 max l acc = none := by
  induction l with
  | nil => cases hb
  | cons c rest ih =>
    intro acc
    rcases List.mem_cons.mp hb with hc | hc
    · subst hc
      simp only [parseDigits, digitVal_ten, if_neg hnd]
    · simp only [parseDigits, digitVal_ten]
      rcases h : decide (isDigitByte c) with _ | _
      · simp [of_decide_eq_false h]
      · simp only [if_pos (of_decide_eq_true h)]
        split
        · exact ih hc _
        · rfl

theorem parseDigits_digits (max : Nat) (l : ByteStr)
    (hd : ∀ b ∈ l, isDigitByte b) :
    ∀ acc, acc ≤ max →
      parseDigits 10 max l acc =
        if acc * 10 ^ l.length + decimalVal l ≤ max then
          some (acc * 10 ^ l.length + decimalVal l)
        else none := by
  induction l with
  | nil =>
    intro acc hacc
    simp [parseDigits, decimalVal, hacc]
  | cons b rest ih =>
    intro acc hacc
    have hb : isDigitByte b := hd b (List.mem_cons_self b rest)
    have hrest : ∀ c ∈ rest, isDigitByte c := fun c hc => hd c (List.mem_cons_of_mem b hc)
    have hkey : acc * 10 ^ (b :: rest).length + decimalVal (b :: rest)
        = (acc * 10 + (b - 48)) * 10 ^ rest.length + decimalVal rest := by
      simp only [List.length_cons, decimalVal, pow_succ]
      ring
    simp only [parseDigits, digitVal_ten, if_pos hb]
    by_cases hle : acc * 10 + (b - 48) ≤ max
    · rw [if_pos hle, ih hrest _ hle, hkey]
    · rw [if_neg hle]
      have h10 : 1 ≤ 10 ^ rest.length := Nat.one_le_pow _ _ (by norm_num)
      have : max < (acc * 10 + (b - 48)) * 10 ^ rest.length + decimalVal rest := by
        calc max < acc * 10 + (b - 48) := by omega
        _ ≤ (acc * 10 + (b - 48)) * 10 ^ rest.length := Nat.le_mul_of_pos_right _ (by omega)
        _ ≤ (acc * 10 + (b - 48)) * 10 ^ rest.length + decimalVal rest := Nat.le_add_right _ _
      rw [hkey, if_neg (by omega)]

theorem parseUintRadix_eq (radix max : Nat) (s : ByteStr) :
    parseUintRadix radix max s =
      match stripPlus s with
      | [] => none
      | d :: ds => parseDigits radix max (d :: ds) 0 := rfl

theorem parseUint_le (radix max : Nat) (s : ByteStr) (v : Nat)
    (h : parseUintRadix radix max s = some v) : v ≤ max := by
  rw [parseUintRadix_eq] at h
  rcases hs : stripPlus s with _ | ⟨d, ds⟩
  · rw [hs] at h; exact absurd h (by simp)
  · rw [hs] at h
    exact parseDigits_le radix max (d :: ds) 0 (Nat.zero_le max) v h

theorem parseUint_nonDigit (max : Nat) (s : ByteStr) (b : Nat)
    (hb : b ∈ stripPlus s) (hnd : ¬ isDigitByte b) :
    parseUintRadix 10 max s = none := by
  rw [parseUintRadix_eq]
  rcases hs : stripPlus s with _ | ⟨d, ds⟩
  · rfl
  · rw [hs] at hb
    exact parseDigits_nonDigit max (d :: ds) b hb hnd 0

theorem parseUint_overflow (max : Nat) (s : ByteStr)
    (hd : ∀ b ∈ stripPlus s, isDigitByte b)
    (hov : max < decimalVal (stripPlus s)) :
    parseUintRadix 10 max s = none := by
  rw [parseUintRadix_eq]
  rcases hs : stripPlus s with _ | ⟨d, ds⟩
  · rfl
  · rw [hs] at hd hov
    change parseDigits 10 max (d :: ds) 0 = none
    rw [parseDigits_digits max (d :: ds) hd 0 (Nat.zero_le max)]
    simp only [Nat.zero_mul, Nat.zero_add]
    rw [if_neg (by omega)]

/--
C5: the numeric parsing functions (text to u128 and text to u64) are
total: they are defined on every input byte string and always return an
in-range value, and every parse failure — a non-digit byte after the
optional sign, the empty string, or overflow of the target width — yields
zero; the functions never raise.
-/
theorem C5_parse_total (s : ByteStr) :
    parse_u128 s ≤ U128MAX ∧ parse_u64 s ≤ U64MAX ∧
    (s = [] → parse_u128 s = 0 ∧ parse_u64 s = 0) ∧
    (∀ b ∈ stripPlus s, ¬ isDigitByte b → parse_u128 s = 0 ∧ parse_u64 s = 0) ∧
    ((∀ b ∈ stripPlus s, isDigitByte b) →
      (U128MAX < decimalVal (stripPlus s) → parse_u128 s = 0) ∧
      (U64MAX < decimalVal (stripPlus s) → parse_u64 s = 0)) := by
  refine ⟨?_, ?_, ?_, ?_, ?_⟩
  · unfold parse_u128
    rcases h : parseUintRadix 10 U128MAX s with _ | v
    · simp
    · simpa using parseUint_le 10 U128MAX s v h
  · unfold parse_u64
    rcases h : parseUintRadix 10 U64MAX s with _ | v
    · simp
    · simpa using parseUint_le 10 U64MAX s v h
  · rintro rfl
    constructor <;> rfl
  · intro b hb hnd
    constructor
    · unfold parse_u128; rw [parseUint_nonDigit U128MAX s b hb hnd]; rfl
    · unfold parse_u64; rw [parseUint_nonDigit U64MAX s b hb hnd]; rfl
  · intro hdig
    constructor
    · intro hov
      unfold parse_u128; rw [parseUint_overflow U128MAX s hdig hov]; rfl
    · intro hov
      unfold parse_u64; rw [parseUint_overflow U64MAX s hdig hov]; rfl

/-- Witness for C5 at concrete inputs: an in-range parse, the empty
string, a non-digit string, and a 64-bit overflow string. -/
theorem C5_parse_total_witness :
    parse_u128 (ascii "12a3") = 0 ∧ parse_u64 (ascii "12a3") = 0 ∧
    parse_u128 [] = 0 ∧ parse_u64 (ascii "18446744073709551616") = 0 := by
  refine ⟨?_, ?_, ?_, ?_⟩
  · exact ((C5_parse_total (ascii "12a3")).2.2.2.1 97 (by decide) (by decide)).1
  · exact ((C5_parse_total (ascii "12a3")).2.2.2.1 97 (by decide) (by decide)).2
  · exact ((C5_parse_total []).2.2.1 rfl).1
  · exact (((C5_parse_total (ascii "18446744073709551616")).2.2.2.2 (by decide)).2 (by decide))

/-! ## Empty input, decoder length check, featured casts -/

/--
C6: for the empty trade set (with any featured position whose trader
address decodes), the aggregate result has trade count 0, win count 0,
total PnL 0, total collateral 0, start timestamp 0 (reset from the
`u64::MAX` sentinel that `initState` carries), end timestamp 0, and
trader identity equal to the decoded trader address of the featured
position.
-/
theorem C6_empty_input (f : FeaturedPosition) (tb : ByteStr)
    (h : decode_address f.trader = some tb) :
    initState.start_timestamp = 2 ^ 64 - 1 ∧
    aggregate [] f = some
      { trade_count := 0
        win_count := 0
        total_pnl_micros := 0
        total_collateral_micros := 0
        start_timestamp := 0
        end_timestamp := 0
        trader_bytes := tb } := by
  refine ⟨rfl, ?_⟩
  simp [aggregate, List.foldlM, h, initState]

/-- Witness for C6 at a concrete featured position. -/
theorem C6_empty_input_witness :
    initState.start_timestamp = 2 ^ 64 - 1 ∧
    aggregate [] exFeat = some
      { trade_count := 0
        win_count := 0
        total_pnl_micros := 0
        total_collateral_micros := 0
        start_timestamp := 0
        end_timestamp := 0
        trader_bytes := List.replicate 20 34 } :=
  C6_empty_input exFeat (List.replicate 20 34) (by decide)

/--
C7: decoding the public values fails (with no partial decode) exactly on
buffers shorter than 110 bytes, and succeeds on every buffer of length at
least 110.
-/
theorem C7_decode_length (bytes : ByteStr) :
    (bytes.length < 110 → decode_public_values bytes = none) ∧
    (110 ≤ bytes.length → (decode_public_values bytes).isSome = true) := by
  constructor
  · intro h
    simp [decode_public_values, h]
  · intro h
    simp [decode_public_values, Nat.not_lt.mpr h]

/-- Witness for C7: a 100-byte buffer fails, a 110-byte buffer succeeds. -/
theorem C7_decode_length_witness :
    decode_public_values (List.replicate 100 0) = none ∧
    (decode_public_values (List.replicate 110 0)).isSome = true :=
  ⟨(C7_decode_length (List.replicate 100 0)).1 (by simp),
   (C7_decode_length (List.replicate 110 0)).2 (by simp)⟩

/--
C10: the committed featured leverage is the parsed 128-bit value reduced
modulo 2^32 and the committed featured collateral is the parsed value
reduced modulo 2^64 — silent truncation, demonstrated on strings one above
each width (2^32 + 1 commits as 1, not rejected and not saturated to
2^32 − 1, and likewise for 2^64 + 1).
-/
theorem C10_featured_truncation :
    (∀ f : FeaturedPosition,
      (encodeFeatured f).leverage = parse_u128 f.leverage % 2 ^ 32 ∧
      (encodeFeatured f).collateral = parse_u128 f.collateral % 2 ^ 64) ∧
    parse_u128 bigFeat.leverage = 2 ^ 32 + 1 ∧
    (encodeFeatured bigFeat).leverage = 1 ∧
    parse_u128 bigFeat.collateral = 2 ^ 64 + 1 ∧
    (encodeFeatured bigFeat).collateral = 1 :=
  ⟨fun _ => ⟨rfl, rfl⟩, by decide, by decide, by decide, by decide⟩

/-! ## Address decoding -/

theorem mapM_eq_some_map {α β : Type} (f : α → Option β) (g : α → β)
    (l : List α) (h : ∀ a ∈ l, f a = some (g a)) :
    l.mapM f = some (l.map g) := by
  induction l with
  | nil => rfl
  | cons a rest ih =>
    rw [List.mapM_cons, h a (List.mem_cons_self a rest),
      ih fun x hx => h x (List.mem_cons_of_mem a hx)]
    rfl

theorem mem_strip0x (addr : ByteStr) (b : Nat) (hb : b ∈ strip0x addr) :
    b ∈ addr := by
  unfold strip0x at hb
  split at hb
  · exact List.mem_cons_of_mem _ (List.mem_cons_of_mem _ hb)
  · exact hb

theorem boundary_of_ascii (s : ByteStr) (hs : ∀ b ∈ s, b < 128)
    (i : Nat) (hi : i ≤ s.length) : isCharBoundary s i := by
  rcases Nat.lt_or_ge i s.length with h | h
  · refine Or.inr (Or.inr ⟨h, Or.inl ?_⟩)
    rw [List.getD_eq_getElem s 0 h]
    exact hs _ (List.getElem_mem h)
  · exact Or.inr (Or.inl (by omega))

theorem strSlice_ascii (s : ByteStr) (hs : ∀ b ∈ s, b < 128)
    (a b : Nat) (hab : a ≤ b) (hb : b ≤ s.length) :
    strSlice s a b = some ((s.drop a).take (b - a)) := by
  unfold strSlice
  rw [if_pos ⟨hab, hb, boundary_of_ascii s hs a (le_trans hab hb),
    boundary_of_ascii s hs b hb⟩]

/--
C4 counterexample: decoding the trader address string "0x1234" — shorter
than 40 hex characters — aborts the run (the byte-pair slice
`hex[i*2..i*2+2]` goes out of bounds, a panic, modelled as `none`), so
address decoding is not abort-free on every input string as claimed.
-/
theorem C4_short_address_aborts : decode_address (ascii "0x1234") = none := by
  decide

/--
C4 (amended): for every trader-address string of ASCII bytes whose length
after stripping the optional 0x prefix is at least 40, address decoding
never aborts: it decodes each successive pair of hex characters into one
byte of a fixed 20-byte output and yields byte 0 at every position whose
hex pair is invalid. (Strings whose stripped length is below 40 abort the
run instead, as the counterexample shows.)
-/
theorem C4_address_decoding (addr : ByteStr)
    (hascii : ∀ b ∈ addr, b < 128)
    (hlen : 40 ≤ (strip0x addr).length) :
    ∃ bs, decode_address addr = some bs ∧ bs.length = 20 ∧
      (∀ i, i < 20 →
        bs.getD i 256 = hexPairByte (((strip0x addr).drop (2 * i)).take 2)) ∧
      (∀ i, i < 20 →
        parseUintRadix 16 255 (((strip0x addr).drop (2 * i)).take 2) = none →
        bs.getD i 256 = 0) := by
  have hs : ∀ b ∈ strip0x addr, b < 128 :=
    fun b hb => hascii b (mem_strip0x addr b hb)
  refine ⟨(List.range 20).map
    (fun i => hexPairByte (((strip0x addr).drop (2 * i)).take 2)), ?_, ?_, ?_, ?_⟩
  · unfold decode_address
    refine mapM_eq_some_map _ _ _ fun i hi => ?_
    have hi20 : i < 20 := List.mem_range.mp hi
    rw [strSlice_ascii (strip0x addr) hs (2 * i) (2 * i + 2) (by omega) (by omega)]
    simp
  · simp
  · intro i hi
    rw [List.getD_eq_getElem _ 256 (by simpa using hi)]
    simp
  · intro i hi hnone
    rw [List.getD_eq_getElem _ 256 (by simpa using hi)]
    simp [hexPairByte, hnone]

/-- Witness for C4 at a 41-character (odd-length) address string whose
first pair is not valid hex. -/
theorem C4_address_decoding_witness :
    ∃ bs, decode_address (ascii "zz345678901234567890123456789012345678901")
        = some bs ∧
      bs.length = 20 ∧
      (∀ i, i < 20 → bs.getD i 256 = hexPairByte
        (((strip0x (ascii "zz345678901234567890123456789012345678901")).drop
          (2 * i)).take 2)) ∧
      (∀ i, i < 20 → parseUintRadix 16 255
        (((strip0x (ascii "zz345678901234567890123456789012345678901")).drop
          (2 * i)).take 2) = none →
        bs.getD i 256 = 0) :=
  C4_address_decoding _ (by decide) (by decide)

/-! ## The trade loop, step by step -/

theorem processTrade_some (st : AggState) (t : Trade) (st' : AggState)
    (h : processTrade st t = some st') :
    ∃ p, tradePnlMicros t = some p ∧
      st'.trade_count = wrap32 (st.trade_count + 1) ∧
      st'.win_count = (if 0 < p then wrap32 (st.win_count + 1) else st.win_count) ∧
      st'.total_pnl_micros = toI64 (st.total_pnl_micros + p) ∧
      st'.total_collateral_micros =
        wrap64 (st.total_collateral_micros + wrap64 (parse_u128 t.collateral)) ∧
      st'.start_timestamp = (if parse_u64 t.timestamp < st.start_timestamp then
        parse_u64 t.timestamp else st.start_timestamp) ∧
      st'.end_timestamp = (if parse_u64 t.timestamp > st.end_timestamp then
        parse_u64 t.timestamp else st.end_timestamp) := by
  unfold processTrade at h
  by_cases h0 : st.trade_count = 0
  · rw [if_pos h0] at h
    simp only [Option.bind_eq_bind, Option.bind_eq_some] at h
    obtain ⟨tb, htb, h⟩ := h
    obtain ⟨p, hp, h⟩ := h
    rw [Option.pure_def, Option.some.injEq] at h
    exact ⟨p, hp, by rw [← h], by rw [← h], by rw [← h], by rw [← h],
      by rw [← h], by rw [← h]⟩
  · rw [if_neg h0] at h
    simp only [Option.bind_eq_bind, Option.bind_eq_some, Option.some_bind] at h
    obtain ⟨p, hp, h⟩ := h
    rw [Option.pure_def, Option.some.injEq] at h
    exact ⟨p, hp, by rw [← h], by rw [← h], by rw [← h], by rw [← h],
      by rw [← h], by rw [← h]⟩

/--
C3 counterexample: a trade whose open price parses to zero but whose
funding field is 10^12 (one micro-USDC after rescaling) contributes −1,
not zero, to the running total PnL — the division-by-zero guard only
zeroes the price PnL, not the fee subtraction.
-/
theorem C3_counterexample :
    parse_u128 zeroOpenTrade.open_price = 0 ∧
    (aggregate [zeroOpenTrade] exFeat).map (fun s => s.total_pnl_micros)
      = some (-1) ∧
    ((-1 : Int) ≠ 0) := by
  refine ⟨by decide, by decide, by decide⟩

/--
C3 (amended): a trade whose open price parses to zero has zero price PnL
regardless of collateral, leverage and close price; its only contribution
to the running total PnL is the subtracted funding/rollover fee
magnitudes, so it contributes exactly zero (and leaves the win count
unchanged) whenever funding and rollover each parse below 10^12, i.e.
rescale to zero micro-USDC.
-/
theorem C3_zero_open_contribution (st : AggState) (t : Trade) (st' : AggState)
    (hopen : parse_u128 t.open_price = 0)
    (hfund : parse_u128 t.funding < 1000000000000)
    (hroll : parse_u128 t.rollover < 1000000000000)
    (hwf : toI64 st.total_pnl_micros = st.total_pnl_micros)
    (hrun : processTrade st t = some st') :
    tradePnlPrice t = some 0 ∧ tradePnlMicros t = some 0 ∧
    st'.total_pnl_micros = st.total_pnl_micros ∧
    st'.win_count = st.win_count := by
  have hprice : tradePnlPrice t = some 0 := by
    unfold tradePnlPrice
    rw [hopen]
    rfl
  have hfee1 : feeMicros t.funding = 0 := by
    unfold feeMicros
    rw [Nat.div_eq_of_lt hfund]
    rfl
  have hfee2 : feeMicros t.rollover = 0 := by
    unfold feeMicros
    rw [Nat.div_eq_of_lt hroll]
    rfl
  have hpnl : tradePnlMicros t = some 0 := by
    unfold tradePnlMicros
    rw [hprice, hfee1, hfee2]
    rfl
  obtain ⟨p, hp, _, hwin, htot, _⟩ := processTrade_some st t st' hrun
  rw [hpnl] at hp
  obtain rfl : p = 0 := by simpa using hp.symm
  refine ⟨hprice, hpnl, ?_, ?_⟩
  · rw [htot, Int.add_zero, hwf]
  · simpa using hwin

/-- Witness for C3 at the fee-free zero-open-price filler trade, run from
the initial state. -/
theorem C3_zero_open_contribution_witness :
    tradePnlPrice fillerTrade = some 0 ∧ tradePnlMicros fillerTrade = some 0 ∧
    (AggState.mk 1 0 0 0 1700000000 1700000000
      (List.replicate 20 17)).total_pnl_micros = initState.total_pnl_micros ∧
    (AggState.mk 1 0 0 0 1700000000 1700000000
      (List.replicate 20 17)).win_count = initState.win_count :=
  C3_zero_open_contribution initState fillerTrade
    (AggState.mk 1 0 0 0 1700000000 1700000000 (List.replicate 20 17))
    (by decide) (by decide) (by decide) (by decide) (by decide)

/-! ## Wrapping arithmetic in range -/

theorem toI64_eq_self (v : Int) (h1 : -(2 ^ 63) ≤ v) (h2 : v < 2 ^ 63) :
    toI64 v = v := by
  show (if v % 2 ^ 64 < 2 ^ 63 then v % 2 ^ 64 else v % 2 ^ 64 - 2 ^ 64) = v
  split_ifs <;> omega

set_option maxRecDepth 4000 in
theorem toI128_eq_self (v : Int) (h1 : -(2 ^ 127) ≤ v) (h2 : v < 2 ^ 127) :
    toI128 v = v := by
  show (if v % 2 ^ 128 < 2 ^ 127 then v % 2 ^ 128 else v % 2 ^ 128 - 2 ^ 128) = v
  split_ifs <;> omega

theorem wrap32_eq_self (n : Nat) (h : n < 2 ^ 32) : wrap32 n = n := by
  unfold wrap32; omega

theorem wrap64_eq_self (n : Nat) (h : n < 2 ^ 64) : wrap64 n = n := by
  unfold wrap64; omega

theorem u128AsI128_eq_self (n : Nat) (h : n < 2 ^ 127) : u128AsI128 n = n := by
  unfold u128AsI128; rw [if_pos h]

theorem feeMicros_eq (s : ByteStr)
    (h : parse_u128 s / 1000000000000 < 2 ^ 63) :
    feeMicros s = ((parse_u128 s / 1000000000000 : Nat) : Int) := by
  unfold feeMicros
  have h0 : (0 : Int) ≤ ((parse_u128 s / 1000000000000 : Nat) : Int) :=
    Int.natCast_nonneg _
  exact toI64_eq_self _ (le_trans (by norm_num) h0) (by exact_mod_cast h)

theorem absI64_of_nonneg (v : Int) (h0 : 0 ≤ v) (h : v < 2 ^ 63) :
    absI64 v = v := by
  unfold absI64
  rw [abs_of_nonneg h0]
  exact toI64_eq_self v (by omega) h

/-- In-range form of the guarded price-PnL computation: when every 128-bit
intermediate and the 64-bit quotient cast fit, the wrapped computation
yields the exact truncating quotient of the spec formula. -/
theorem tradePnlPrice_exact (t : Trade)
    (hop : 0 < parse_u128 t.open_price)
    (hc : parse_u128 t.collateral < 2 ^ 127)
    (hl : parse_u128 t.leverage < 2 ^ 127)
    (hcp : parse_u128 t.close_price < 2 ^ 127)
    (hcl : parse_u128 t.collateral * parse_u128 t.leverage < 2 ^ 127)
    (hden : parse_u128 t.open_price * 100 < 2 ^ 127)
    (hnum : parse_u128 t.collateral * parse_u128 t.leverage *
      (exactPriceDiff t).natAbs < 2 ^ 127)
    (hq : parse_u128 t.collateral * parse_u128 t.leverage *
      (exactPriceDiff t).natAbs / (parse_u128 t.open_price * 100) < 2 ^ 63) :
    tradePnlPrice t = some (Int.tdiv
      ((parse_u128 t.collateral : Int) * (parse_u128 t.leverage : Int) *
        exactPriceDiff t)
      ((parse_u128 t.open_price : Int) * 100)) := by
  have hopc : parse_u128 t.open_price < 2 ^ 127 :=
    lt_of_le_of_lt (Nat.le_mul_of_pos_right _ (by norm_num)) hden
  have hoppos : (0 : Int) < (parse_u128 t.open_price : Int) := by exact_mod_cast hop
  have hdpos : (0 : Int) < (parse_u128 t.open_price : Int) * 100 :=
    mul_pos hoppos (by norm_num)
  have hpd : priceDiff t = exactPriceDiff t := by
    unfold priceDiff exactPriceDiff
    rw [u128AsI128_eq_self _ hopc, u128AsI128_eq_self _ hcp]
    cases t.is_buy <;> simp only [Bool.false_eq_true, if_false, if_true] <;>
      exact toI128_eq_self _ (by omega) (by omega)
  have habs : (((parse_u128 t.collateral : Int) * (parse_u128 t.leverage : Int) *
      exactPriceDiff t)).natAbs =
      parse_u128 t.collateral * parse_u128 t.leverage * (exactPriceDiff t).natAbs := by
    rw [Int.natAbs_mul, Int.natAbs_mul, Int.natAbs_ofNat, Int.natAbs_ofNat]
  have hinner : toI128 (u128AsI128 (parse_u128 t.collateral) *
      u128AsI128 (parse_u128 t.leverage)) =
      (parse_u128 t.collateral : Int) * (parse_u128 t.leverage : Int) := by
    rw [u128AsI128_eq_self _ hc, u128AsI128_eq_self _ hl]
    have h0 : (0 : Int) ≤ (parse_u128 t.collateral : Int) *
        (parse_u128 t.leverage : Int) := by positivity
    refine toI128_eq_self _ (le_trans (by norm_num) h0) ?_
    exact_mod_cast hcl
  have houter : toI128 ((parse_u128 t.collateral : Int) *
      (parse_u128 t.leverage : Int) * exactPriceDiff t) =
      (parse_u128 t.collateral : Int) * (parse_u128 t.leverage : Int) *
        exactPriceDiff t :=
    toI128_eq_self ((parse_u128 t.collateral : Int) *
      (parse_u128 t.leverage : Int) * exactPriceDiff t) (by omega) (by omega)
  have hdeneq : toI128 ((parse_u128 t.open_price : Int) * 100) =
      (parse_u128 t.open_price : Int) * 100 := by
    refine toI128_eq_self _ (le_trans (by norm_num) (le_of_lt hdpos)) ?_
    exact_mod_cast hden
  have hdiv : i128Div
      ((parse_u128 t.collateral : Int) * (parse_u128 t.leverage : Int) *
        exactPriceDiff t)
      ((parse_u128 t.open_price : Int) * 100) =
      some (Int.tdiv
        ((parse_u128 t.collateral : Int) * (parse_u128 t.leverage : Int) *
          exactPriceDiff t)
        ((parse_u128 t.open_price : Int) * 100)) := by
    unfold i128Div
    rw [if_neg]
    rintro (h | ⟨h1, h2⟩) <;> linarith
  have hqabs : (Int.tdiv
      ((parse_u128 t.collateral : Int) * (parse_u128 t.leverage : Int) *
        exactPriceDiff t)
      ((parse_u128 t.open_price : Int) * 100)).natAbs < 2 ^ 63 := by
    rw [Int.natAbs_tdiv, habs]
    have hdabs : ((parse_u128 t.open_price : Int) * 100).natAbs =
        parse_u128 t.open_price * 100 := by
      rw [Int.natAbs_mul, Int.natAbs_ofNat]
      rfl
    rw [hdabs]
    exact hq
  simp only [tradePnlPrice]
  rw [if_pos hop, u128AsI128_eq_self _ hopc, hpd, hinner, houter, hdeneq, hdiv,
    Option.map_some']
  exact congrArg some (toI64_eq_self _ (by omega) (by omega))

/-- In-range form of the whole fee-adjusted PnL of one trade: when every
intermediate fits, the wrapped computation yields the exact value. -/
theorem tradePnlMicros_exact (t : Trade) (hfits : TradeFits t) :
    tradePnlMicros t = some (exactTradePnl t) := by
  obtain ⟨hc, hl, hcp, hcl, hden, hnum, hq, hfee, htp⟩ := hfits
  have h63 : ((exactTradePnl t).natAbs : Int) < 2 ^ 63 := by exact_mod_cast htp
  have hub : exactTradePnl t < 2 ^ 63 := lt_of_le_of_lt (Int.le_natAbs) h63
  have hlb : -(2 ^ 63 : Int) ≤ exactTradePnl t := by
    have hn : -((exactTradePnl t).natAbs : Int) ≤ exactTradePnl t := by
      rw [← Int.abs_eq_natAbs]
      exact neg_abs_le _
    linarith
  have hf1 : parse_u128 t.funding / 1000000000000 < 2 ^ 63 := by omega
  have hf2 : parse_u128 t.rollover / 1000000000000 < 2 ^ 63 := by omega
  have habs1 : absI64 (feeMicros t.funding) =
      ((parse_u128 t.funding / 1000000000000 : Nat) : Int) := by
    rw [feeMicros_eq _ hf1]
    exact absI64_of_nonneg _ (Int.natCast_nonneg _) (by exact_mod_cast hf1)
  have habs2 : absI64 (feeMicros t.rollover) =
      ((parse_u128 t.rollover / 1000000000000 : Nat) : Int) := by
    rw [feeMicros_eq _ hf2]
    exact absI64_of_nonneg _ (Int.natCast_nonneg _) (by exact_mod_cast hf2)
  have hsum : toI64 (absI64 (feeMicros t.funding) + absI64 (feeMicros t.rollover)) =
      ((parse_u128 t.funding / 1000000000000 : Nat) : Int) +
      ((parse_u128 t.rollover / 1000000000000 : Nat) : Int) := by
    rw [habs1, habs2]
    have h0 : (0 : Int) ≤ ((parse_u128 t.funding / 1000000000000 : Nat) : Int) +
        ((parse_u128 t.rollover / 1000000000000 : Nat) : Int) :=
      Int.add_nonneg (Int.natCast_nonneg _) (Int.natCast_nonneg _)
    exact toI64_eq_self
      (((parse_u128 t.funding / 1000000000000 : Nat) : Int) +
        ((parse_u128 t.rollover / 1000000000000 : Nat) : Int))
      (le_trans (by norm_num) h0) (by exact_mod_cast hfee)
  unfold tradePnlMicros
  by_cases hop : 0 < parse_u128 t.open_price
  · rw [tradePnlPrice_exact t hop hc hl hcp hcl hden hnum hq, Option.map_some',
      hsum]
    have hval : exactTradePnl t = Int.tdiv
        ((parse_u128 t.collateral : Int) * (parse_u128 t.leverage : Int) *
          exactPriceDiff t)
        ((parse_u128 t.open_price : Int) * 100)
        - ((parse_u128 t.funding / 1000000000000 : Nat) : Int)
        - ((parse_u128 t.rollover / 1000000000000 : Nat) : Int) := by
      unfold exactTradePnl
      rw [if_pos hop]
    refine congrArg some ?_
    rw [sub_add_eq_sub_sub, ← hval]
    exact toI64_eq_self _ hlb hub
  · have hop0 : parse_u128 t.open_price = 0 := by omega
    have hprice : tradePnlPrice t = some 0 := by
      unfold tradePnlPrice
      rw [hop0]
      rfl
    rw [hprice, Option.map_some', hsum]
    have hval : exactTradePnl t =
        0 - ((parse_u128 t.funding / 1000000000000 : Nat) : Int)
          - ((parse_u128 t.rollover / 1000000000000 : Nat) : Int) := by
      unfold exactTradePnl
      rw [if_neg hop]
    refine congrArg some ?_
    rw [sub_add_eq_sub_sub, ← hval]
    exact toI64_eq_self _ hlb hub

set_option maxRecDepth 100000 in
/--
C1 counterexample: for the spec's own worked example (one buy trade,
collateral 100000000, leverage 5000, open price 10^18, close price
1.01 × 10^18, no fees) the committed total PnL is 50000000 micro-USDC
(50 USDC), not the 5000000 the claim states.
-/
theorem C1_counterexample :
    (aggregate [exTrade] exFeat).map
      (fun s => (s.total_pnl_micros, s.win_count)) = some (50000000, 1) ∧
    (50000000 : Int) ≠ 5000000 :=
  ⟨by decide, by decide⟩

set_option maxRecDepth 100000 in
/--
C1 (amended): for every closed trade with non-zero open price whose
128-bit intermediates and 64-bit quotient fit (`TradeFits`), the trade's
price PnL equals collateral × leverage × priceDiff divided by
(openPrice × 100) with truncating integer division, where priceDiff is
(close − open) for longs and (open − close) for shorts; and for the worked
example the committed total PnL is 50000000 micro-USDC (not 5000000) with
win count 1.
-/
theorem C1_price_pnl_formula :
    (∀ t : Trade, 0 < parse_u128 t.open_price → TradeFits t →
      tradePnlPrice t = some (Int.tdiv
        ((parse_u128 t.collateral : Int) * (parse_u128 t.leverage : Int) *
          exactPriceDiff t)
        ((parse_u128 t.open_price : Int) * 100))) ∧
    (aggregate [exTrade] exFeat).map
      (fun s => (s.total_pnl_micros, s.win_count)) = some (50000000, 1) := by
  refine ⟨fun t hop hf => ?_, by decide⟩
  obtain ⟨hc, hl, hcp, hcl, hden, hnum, hq, _, _⟩ := hf
  exact tradePnlPrice_exact t hop hc hl hcp hcl hden hnum hq

set_option maxRecDepth 100000 in
/-- Witness for C1 at the worked-example trade. -/
theorem C1_price_pnl_formula_witness :
    tradePnlPrice exTrade = some (Int.tdiv
      ((parse_u128 exTrade.collateral : Int) *
        (parse_u128 exTrade.leverage : Int) * exactPriceDiff exTrade)
      ((parse_u128 exTrade.open_price : Int) * 100)) :=
  C1_price_pnl_formula.1 exTrade (by decide) (by decide)

/-! ## Binary encoding lemmas -/

theorem toBeBytes_length (w v : Nat) : (toBeBytes w v).length = w := by
  induction w generalizing v with
  | zero => rfl
  | succ w ih => simp [toBeBytes, ih]

theorem i64BeBytes_length (p : Int) : (i64BeBytes p).length = 8 :=
  toBeBytes_length 8 _

theorem foldl_toBeBytes (w : Nat) :
    ∀ v acc, (toBeBytes w v).foldl (fun acc b => acc * 256 + b) acc =
      acc * 2 ^ (8 * w) + v % 2 ^ (8 * w) := by
  induction w with
  | zero => intro v acc; simp [toBeBytes, Nat.mod_one]
  | succ w ih =>
    intro v acc
    have hpow : 2 ^ (8 * (w + 1)) = 2 ^ (8 * w) * 256 := by
      rw [Nat.mul_succ, pow_add]
      norm_num
    rw [toBeBytes, List.foldl_cons, ih, hpow, Nat.mod_mul]
    ring

theorem fromBe_toBe (w v : Nat) (h : v < 2 ^ (8 * w)) :
    fromBeBytes (toBeBytes w v) = v := by
  unfold fromBeBytes
  rw [foldl_toBeBytes]
  simp [Nat.mod_eq_of_lt h]

theorem i64_roundtrip (p : Int) (h1 : -(2 ^ 63) ≤ p) (h2 : p < 2 ^ 63) :
    i64FromBeBytes (i64BeBytes p) = p := by
  have hnn : (0 : Int) ≤ p % 2 ^ 64 := Int.emod_nonneg p (by norm_num)
  have hn : ((p % 2 ^ 64).toNat : Int) = p % 2 ^ 64 := Int.toNat_of_nonneg hnn
  have hlt : (p % 2 ^ 64).toNat < 2 ^ (8 * 8) := by omega
  unfold i64FromBeBytes i64BeBytes
  rw [fromBe_toBe 8 _ hlt]
  split_ifs with h <;> omega

/-! ## Buffer slicing lemmas -/

theorem dropOffset {α : Type} {buf seg tail : List α} {off len : Nat}
    (hbuf : buf.drop off = seg ++ tail) (hseg : seg.length = len) :
    buf.drop (off + len) = tail := by
  rw [← List.drop_drop, hbuf]
  exact List.drop_left' hseg

theorem takeSeg {α : Type} {buf seg tail : List α} {off len : Nat}
    (hbuf : buf.drop off = seg ++ tail) (hseg : seg.length = len) :
    (buf.drop off).take len = seg := by
  rw [hbuf]
  exact List.take_left' hseg

theorem commitPublicValues_length (a : AggState) (f : FeaturedResult)
    (h20 : a.trader_bytes.length = 20) :
    (commitPublicValues a f).length = 110 := by
  simp [commitPublicValues, toBeBytes_length, i64BeBytes_length, h20]

/--
C2: encoding an aggregate result and a featured result into the 110-byte
big-endian buffer and decoding it recovers every integer field exactly —
a lossless round-trip (the decoder's display-only floating-point rescaling
is outside this integer extraction).
-/
theorem C2_roundtrip (a : AggState) (f : FeaturedResult)
    (ha : AggWF a) (hf : FeatWF f) :
    decode_public_values (commitPublicValues a f) = some
      { trader := a.trader_bytes
        trade_count := a.trade_count
        win_count := a.win_count
        total_pnl_micros := a.total_pnl_micros
        total_collateral_micros := a.total_collateral_micros
        start_timestamp := a.start_timestamp
        end_timestamp := a.end_timestamp
        featured_trade_id := f.trade_id
        featured_pair_index := f.pair_index
        featured_is_buy := decide (f.is_buy = 1)
        featured_leverage := f.leverage
        featured_collateral_micros := f.collateral
        featured_entry_price := f.entry_price
        featured_is_open := decide (f.is_open = 1)
        featured_timestamp := f.timestamp } := by
  obtain ⟨ha1, ha2, ha3, ha4, ha5, ha6, ha7, ha8⟩ := ha
  obtain ⟨hf1, hf2, hf3, hf4, hf5, hf6, hf7, hf8⟩ := hf
  have hd0 : (commitPublicValues a f).drop 0 = a.trader_bytes ++ (toBeBytes 4 a.trade_count ++ (toBeBytes 4 a.win_count ++ (i64BeBytes a.total_pnl_micros ++ (toBeBytes 8 a.total_collateral_micros ++ (toBeBytes 8 a.start_timestamp ++ (toBeBytes 8 a.end_timestamp ++ (toBeBytes 8 f.trade_id ++ (toBeBytes 4 f.pair_index ++ ([f.is_buy] ++ (toBeBytes 4 f.leverage ++ (toBeBytes 8 f.collateral ++ (toBeBytes 16 f.entry_price ++ ([f.is_open] ++ (toBeBytes 8 f.timestamp)))))))))))))) := by
    rw [List.drop_zero]; rfl
  have hd20 : (commitPublicValues a f).drop 20 = toBeBytes 4 a.trade_count ++ (toBeBytes 4 a.win_count ++ (i64BeBytes a.total_pnl_micros ++ (toBeBytes 8 a.total_collateral_micros ++ (toBeBytes 8 a.start_timestamp ++ (toBeBytes 8 a.end_timestamp ++ (toBeBytes 8 f.trade_id ++ (toBeBytes 4 f.pair_index ++ ([f.is_buy] ++ (toBeBytes 4 f.leverage ++ (toBeBytes 8 f.collateral ++ (toBeBytes 16 f.entry_price ++ ([f.is_open] ++ (toBeBytes 8 f.timestamp))))))))))))) := by
    simpa using dropOffset hd0 (ha1)
  have hd24 : (commitPublicValues a f).drop 24 = toBeBytes 4 a.win_count ++ (i64BeBytes a.total_pnl_micros ++ (toBeBytes 8 a.total_collateral_micros ++ (toBeBytes 8 a.start_timestamp ++ (toBeBytes 8 a.end_timestamp ++ (toBeBytes 8 f.trade_id ++ (toBeBytes 4 f.pair_index ++ ([f.is_buy] ++ (toBeBytes 4 f.leverage ++ (toBeBytes 8 f.collateral ++ (toBeBytes 16 f.entry_price ++ ([f.is_open] ++ (toBeBytes 8 f.timestamp)))))))))))) := by
    simpa using dropOffset hd20 (toBeBytes_length 4 _)
  have hd28 : (commitPublicValues a f).drop 28 = i64BeBytes a.total_pnl_micros ++ (toBeBytes 8 a.total_collateral_micros ++ (toBeBytes 8 a.start_timestamp ++ (toBeBytes 8 a.end_timestamp ++ (toBeBytes 8 f.trade_id ++ (toBeBytes 4 f.pair_index ++ ([f.is_buy] ++ (toBeBytes 4 f.leverage ++ (toBeBytes 8 f.collateral ++ (toBeBytes 16 f.entry_price ++ ([f.is_open] ++ (toBeBytes 8 f.timestamp))))))))))) := by
    simpa using dropOffset hd24 (toBeBytes_length 4 _)
  have hd36 : (commitPublicValues a f).drop 36 = toBeBytes 8 a.total_collateral_micros ++ (toBeBytes 8 a.start_timestamp ++ (toBeBytes 8 a.end_timestamp ++ (toBeBytes 8 f.trade_id ++ (toBeBytes 4 f.pair_index ++ ([f.is_buy] ++ (toBeBytes 4 f.leverage ++ (toBeBytes 8 f.collateral ++ (toBeBytes 16 f.entry_price ++ ([f.is_open] ++ (toBeBytes 8 f.timestamp)))))))))) := by
    simpa using dropOffset hd28 (i64BeBytes_length _)
  have hd44 : (commitPublicValues a f).drop 44 = toBeBytes 8 a.start_timestamp ++ (toBeBytes 8 a.end_timestamp ++ (toBeBytes 8 f.trade_id ++ (toBeBytes 4 f.pair_index ++ ([f.is_buy] ++ (toBeBytes 4 f.leverage ++ (toBeBytes 8 f.collateral ++ (toBeBytes 16 f.entry_price ++ ([f.is_open] ++ (toBeBytes 8 f.timestamp))))))))) := by
    simpa using dropOffset hd36 (toBeBytes_length 8 _)
  have hd52 : (commitPublicValues a f).drop 52 = toBeBytes 8 a.end_timestamp ++ (toBeBytes 8 f.trade_id ++ (toBeBytes 4 f.pair_index ++ ([f.is_buy] ++ (toBeBytes 4 f.leverage ++ (toBeBytes 8 f.collateral ++ (toBeBytes 16 f.entry_price ++ ([f.is_open] ++ (toBeBytes 8 f.timestamp)))))))) := by
    simpa using dropOffset hd44 (toBeBytes_length 8 _)
  have hd60 : (commitPublicValues a f).drop 60 = toBeBytes 8 f.trade_id ++ (toBeBytes 4 f.pair_index ++ ([f.is_buy] ++ (toBeBytes 4 f.leverage ++ (toBeBytes 8 f.collateral ++ (toBeBytes 16 f.entry_price ++ ([f.is_open] ++ (toBeBytes 8 f.timestamp))))))) := by
    simpa using dropOffset hd52 (toBeBytes_length 8 _)
  have hd68 : (commitPublicValues a f).drop 68 = toBeBytes 4 f.pair_index ++ ([f.is_buy] ++ (toBeBytes 4 f.leverage ++ (toBeBytes 8 f.collateral ++ (toBeBytes 16 f.entry_price ++ ([f.is_open] ++ (toBeBytes 8 f.timestamp)))))) := by
    simpa using dropOffset hd60 (toBeBytes_length 8 _)
  have hd72 : (commitPublicValues a f).drop 72 = [f.is_buy] ++ (toBeBytes 4 f.leverage ++ (toBeBytes 8 f.collateral ++ (toBeBytes 16 f.entry_price ++ ([f.is_open] ++ (toBeBytes 8 f.timestamp))))) := by
    simpa using dropOffset hd68 (toBeBytes_length 4 _)
  have hd73 : (commitPublicValues a f).drop 73 = toBeBytes 4 f.leverage ++ (toBeBytes 8 f.collateral ++ (toBeBytes 16 f.entry_price ++ ([f.is_open] ++ (toBeBytes 8 f.timestamp)))) := by
    simpa using dropOffset hd72 (rfl)
  have hd77 : (commitPublicValues a f).drop 77 = toBeBytes 8 f.collateral ++ (toBeBytes 16 f.entry_price ++ ([f.is_open] ++ (toBeBytes 8 f.timestamp))) := by
    simpa using dropOffset hd73 (toBeBytes_length 4 _)
  have hd85 : (commitPublicValues a f).drop 85 = toBeBytes 16 f.entry_price ++ ([f.is_open] ++ (toBeBytes 8 f.timestamp)) := by
    simpa using dropOffset hd77 (toBeBytes_length 8 _)
  have hd101 : (commitPublicValues a f).drop 101 = [f.is_open] ++ (toBeBytes 8 f.timestamp) := by
    simpa using dropOffset hd85 (toBeBytes_length 16 _)
  have hd102 : (commitPublicValues a f).drop 102 = toBeBytes 8 f.timestamp := by
    simpa using dropOffset hd101 (rfl)
  have hv_trader : byteRange (commitPublicValues a f) 0 20 = a.trader_bytes := takeSeg hd0 (ha1)
  have hv_tc : fromBeBytes (byteRange (commitPublicValues a f) 20 4) = a.trade_count := by
    rw [show byteRange (commitPublicValues a f) 20 4 = toBeBytes 4 a.trade_count from takeSeg hd20 (toBeBytes_length 4 _)]
    exact fromBe_toBe 4 _ (by omega)
  have hv_wc : fromBeBytes (byteRange (commitPublicValues a f) 24 4) = a.win_count := by
    rw [show byteRange (commitPublicValues a f) 24 4 = toBeBytes 4 a.win_count from takeSeg hd24 (toBeBytes_length 4 _)]
    exact fromBe_toBe 4 _ (by omega)
  have hv_pnl : i64FromBeBytes (byteRange (commitPublicValues a f) 28 8) = a.total_pnl_micros := by
    rw [show byteRange (commitPublicValues a f) 28 8 = i64BeBytes a.total_pnl_micros from takeSeg hd28 (i64BeBytes_length _)]
    exact i64_roundtrip _ ha4 ha5
  have hv_coll : fromBeBytes (byteRange (commitPublicValues a f) 36 8) = a.total_collateral_micros := by
    rw [show byteRange (commitPublicValues a f) 36 8 = toBeBytes 8 a.total_collateral_micros from takeSeg hd36 (toBeBytes_length 8 _)]
    exact fromBe_toBe 8 _ (by omega)
  have hv_st : fromBeBytes (byteRange (commitPublicValues a f) 44 8) = a.start_timestamp := by
    rw [show byteRange (commitPublicValues a f) 44 8 = toBeBytes 8 a.start_timestamp from takeSeg hd44 (toBeBytes_length 8 _)]
    exact fromBe_toBe 8 _ (by omega)
  have hv_et : fromBeBytes (byteRange (commitPublicValues a f) 52 8) = a.end_timestamp := by
    rw [show byteRange (commitPublicValues a f) 52 8 = toBeBytes 8 a.end_timestamp from takeSeg hd52 (toBeBytes_length 8 _)]
    exact fromBe_toBe 8 _ (by omega)
  have hv_tid : fromBeBytes (byteRange (commitPublicValues a f) 60 8) = f.trade_id := by
    rw [show byteRange (commitPublicValues a f) 60 8 = toBeBytes 8 f.trade_id from takeSeg hd60 (toBeBytes_length 8 _)]
    exact fromBe_toBe 8 _ (by omega)
  have hv_pidx : fromBeBytes (byteRange (commitPublicValues a f) 68 4) = f.pair_index := by
    rw [show byteRange (commitPublicValues a f) 68 4 = toBeBytes 4 f.pair_index from takeSeg hd68 (toBeBytes_length 4 _)]
    exact fromBe_toBe 4 _ (by omega)
  have hv_lev : fromBeBytes (byteRange (commitPublicValues a f) 73 4) = f.leverage := by
    rw [show byteRange (commitPublicValues a f) 73 4 = toBeBytes 4 f.leverage from takeSeg hd73 (toBeBytes_length 4 _)]
    exact fromBe_toBe 4 _ (by omega)
  have hv_fcoll : fromBeBytes (byteRange (commitPublicValues a f) 77 8) = f.collateral := by
    rw [show byteRange (commitPublicValues a f) 77 8 = toBeBytes 8 f.collateral from takeSeg hd77 (toBeBytes_length 8 _)]
    exact fromBe_toBe 8 _ (by omega)
  have hv_price : fromBeBytes (byteRange (commitPublicValues a f) 85 16) = f.entry_price := by
    rw [show byteRange (commitPublicValues a f) 85 16 = toBeBytes 16 f.entry_price from takeSeg hd85 (toBeBytes_length 16 _)]
    exact fromBe_toBe 16 _ (by omega)
  have hv_ts : fromBeBytes (byteRange (commitPublicValues a f) 102 8) = f.timestamp := by
    have hseg : byteRange (commitPublicValues a f) 102 8 = toBeBytes 8 f.timestamp := by
      unfold byteRange
      rw [hd102]
      exact List.take_of_length_le (le_of_eq (toBeBytes_length 8 _))
    rw [hseg]
    exact fromBe_toBe 8 _ (by omega)
  have hv_isbuy : (commitPublicValues a f).getD 72 0 = f.is_buy := by
    have h := List.getElem?_drop (commitPublicValues a f) 72 0
    rw [hd72] at h
    simp only [List.cons_append, List.getElem?_cons_zero, Nat.add_zero] at h
    rw [List.getD_eq_getElem?_getD, ← h]
    rfl
  have hv_isopen : (commitPublicValues a f).getD 101 0 = f.is_open := by
    have h := List.getElem?_drop (commitPublicValues a f) 101 0
    rw [hd101] at h
    simp only [List.cons_append, List.getElem?_cons_zero, Nat.add_zero] at h
    rw [List.getD_eq_getElem?_getD, ← h]
    rfl
  have hlen : ¬ (commitPublicValues a f).length < 110 := by
    rw [commitPublicValues_length a f ha1]
    norm_num
  unfold decode_public_values
  rw [if_neg hlen, hv_trader, hv_tc, hv_wc, hv_pnl, hv_coll, hv_st, hv_et,
    hv_tid, hv_pidx, hv_lev, hv_fcoll, hv_price, hv_ts, hv_isbuy, hv_isopen]

/-- Witness for C2 at a concrete aggregate state and featured result. -/
theorem C2_roundtrip_witness :
    decode_public_values
      (commitPublicValues exAggSt (encodeFeatured exFeat)) = some
      { trader := exAggSt.trader_bytes
        trade_count := exAggSt.trade_count
        win_count := exAggSt.win_count
        total_pnl_micros := exAggSt.total_pnl_micros
        total_collateral_micros := exAggSt.total_collateral_micros
        start_timestamp := exAggSt.start_timestamp
        end_timestamp := exAggSt.end_timestamp
        featured_trade_id := (encodeFeatured exFeat).trade_id
        featured_pair_index := (encodeFeatured exFeat).pair_index
        featured_is_buy := decide ((encodeFeatured exFeat).is_buy = 1)
        featured_leverage := (encodeFeatured exFeat).leverage
        featured_collateral_micros := (encodeFeatured exFeat).collateral
        featured_entry_price := (encodeFeatured exFeat).entry_price
        featured_is_open := decide ((encodeFeatured exFeat).is_open = 1)
        featured_timestamp := (encodeFeatured exFeat).timestamp } :=
  C2_roundtrip exAggSt (encodeFeatured exFeat) (by decide) (by decide)


/-! ## Trade counting -/

theorem processTrade_filler (st : AggState)
    (h0 : st.trade_count ≠ 0)
    (hpnl : toI64 st.total_pnl_micros = st.total_pnl_micros)
    (hcol : st.total_collateral_micros < 2 ^ 64)
    (hs : st.start_timestamp ≤ 1700000000)
    (he : 1700000000 ≤ st.end_timestamp) :
    processTrade st fillerTrade =
      some { st with trade_count := wrap32 (st.trade_count + 1) } := by
  unfold processTrade
  rw [if_neg h0]
  simp only [Option.bind_eq_bind, Option.some_bind]
  rw [show tradePnlMicros fillerTrade = some 0 from by decide]
  simp only [Option.bind_eq_bind, Option.some_bind]
  rw [show parse_u128 fillerTrade.collateral = 0 from by decide,
    show parse_u64 fillerTrade.timestamp = 1700000000 from by decide]
  simp only [show wrap64 0 = 0 from rfl, Nat.add_zero, add_zero, hpnl,
    wrap64_eq_self _ hcol, if_neg (not_lt.mpr hs), if_neg (not_lt.mpr he),
    Option.pure_def]
  norm_num


theorem foldlM_filler (n : Nat) : ∀ st : AggState,
    1 ≤ st.trade_count → st.trade_count < 2 ^ 32 →
    st.trade_count + n ≤ 2 ^ 32 →
    toI64 st.total_pnl_micros = st.total_pnl_micros →
    st.total_collateral_micros < 2 ^ 64 →
    st.start_timestamp ≤ 1700000000 → 1700000000 ≤ st.end_timestamp →
    (List.replicate n fillerTrade).foldlM processTrade st =
      some { st with trade_count := (st.trade_count + n) % 2 ^ 32 } := by
  induction n with
  | zero =>
    intro st h1 h2 h3 hpnl hcol hs he
    rw [List.replicate]
    show some st = _
    rw [Nat.add_zero, Nat.mod_eq_of_lt h2]
  | succ n ih =>
    intro st h1 h2 h3 hpnl hcol hs he
    rw [List.replicate_succ, List.foldlM_cons,
      processTrade_filler st (by omega) hpnl hcol hs he]
    simp only [Option.bind_eq_bind, Option.some_bind]
    rcases Nat.lt_or_ge (st.trade_count + 1) (2 ^ 32) with hlt | hge
    · rw [show wrap32 (st.trade_count + 1) = st.trade_count + 1 from
        wrap32_eq_self _ hlt]
      rw [ih { st with trade_count := st.trade_count + 1 }
        (by show 1 ≤ st.trade_count + 1; omega)
        (by show st.trade_count + 1 < 2 ^ 32; exact hlt)
        (by show st.trade_count + 1 + n ≤ 2 ^ 32; omega)
        (by show toI64 st.total_pnl_micros = st.total_pnl_micros; exact hpnl)
        (by show st.total_collateral_micros < 2 ^ 64; exact hcol)
        (by show st.start_timestamp ≤ 1700000000; exact hs)
        (by show 1700000000 ≤ st.end_timestamp; exact he)]
      have harith : st.trade_count + 1 + n = st.trade_count + (n + 1) := by omega
      simp only [harith]
    · have hn : n = 0 := by omega
      subst hn
      rw [List.replicate]
      show some _ = _
      have : wrap32 (st.trade_count + 1) = (st.trade_count + (0 + 1)) % 2 ^ 32 := by
        unfold wrap32
        norm_num
      rw [this]

theorem foldlM_count (l : List Trade) : ∀ st st' : AggState,
    l.foldlM processTrade st = some st' →
    st.trade_count + l.length < 2 ^ 32 →
    st.win_count ≤ st.trade_count →
    st'.trade_count = st.trade_count + l.length ∧
    st'.win_count = st.win_count +
      l.countP (fun t => decide (0 < (tradePnlMicros t).getD 0)) := by
  induction l with
  | nil =>
    intro st st' h hcnt hw
    rw [List.foldlM_nil] at h
    obtain rfl : st = st' := by simpa using h
    simp
  | cons t rest ih =>
    intro st st' h hcnt hw
    rw [List.foldlM_cons] at h
    simp only [Option.bind_eq_bind, Option.bind_eq_some] at h
    obtain ⟨st₁, h1, h2⟩ := h
    obtain ⟨p, hp, e_cnt, e_win, _, _, _, _⟩ := processTrade_some st t st₁ h1
    have hcnt1 : st₁.trade_count = st.trade_count + 1 := by
      rw [e_cnt, wrap32_eq_self]
      simp at hcnt
      omega
    have hwin1 : st₁.win_count =
        if 0 < p then st.win_count + 1 else st.win_count := by
      rw [e_win]
      split_ifs with hpos
      · rw [wrap32_eq_self]
        simp at hcnt
        omega
      · rfl
    have hw1 : st₁.win_count ≤ st₁.trade_count := by
      rw [hcnt1, hwin1]
      split_ifs <;> omega
    have hcnt2 : st₁.trade_count + rest.length < 2 ^ 32 := by
      rw [hcnt1]
      simp at hcnt
      omega
    obtain ⟨c1, c2⟩ := ih st₁ st' h2 hcnt2 hw1
    constructor
    · rw [c1, hcnt1, List.length_cons]
      omega
    · rw [c2, hwin1, List.countP_cons, hp]
      simp only [Option.getD_some]
      by_cases hpos : 0 < p
      · rw [if_pos hpos, if_pos (by simpa using hpos)]
        omega
      · rw [if_neg hpos, if_neg (by simpa using hpos)]
        omega


/--
C9 (amended): for every sequence of fewer than 2^32 trade records whose
aggregation succeeds, the trade count equals the number of input records,
the win count is at most the trade count, and the win count counts exactly
the trades whose fee-adjusted PnL is strictly positive.
-/
theorem C9_counts (trades : List Trade) (f : FeaturedPosition) (st : AggState)
    (hlen : trades.length < 2 ^ 32)
    (hrun : aggregate trades f = some st) :
    st.trade_count = trades.length ∧ st.win_count ≤ st.trade_count ∧
    st.win_count = trades.countP
      (fun t => decide (0 < (tradePnlMicros t).getD 0)) := by
  unfold aggregate at hrun
  simp only [Option.bind_eq_bind, Option.bind_eq_some] at hrun
  obtain ⟨st₁, hfold, hrest⟩ := hrun
  obtain ⟨hc, hw⟩ := foldlM_count trades initState st₁ hfold
    (by simpa [initState] using hlen) (by norm_num [initState])
  have hproj : st.trade_count = st₁.trade_count ∧ st.win_count = st₁.win_count := by
    by_cases he : trades.isEmpty
    · rw [if_pos he] at hrest
      simp only [Option.bind_eq_bind, Option.bind_eq_some] at hrest
      obtain ⟨tb, htb, hrest⟩ := hrest
      obtain rfl : _ = st := by simpa using hrest
      exact ⟨rfl, rfl⟩
    · rw [if_neg he] at hrest
      obtain rfl : st₁ = st := by simpa using hrest
      exact ⟨rfl, rfl⟩
  have h1 : st.trade_count = trades.length := by
    rw [hproj.1, hc]
    simp [initState]
  have h3 : st.win_count = trades.countP
      (fun t => decide (0 < (tradePnlMicros t).getD 0)) := by
    rw [hproj.2, hw]
    simp [initState]
  refine ⟨h1, ?_, h3⟩
  rw [h1, h3]
  exact List.countP_le_length _


theorem aggregate_cons (t : Trade) (rest : List Trade) (f : FeaturedPosition) :
    aggregate (t :: rest) f = (t :: rest).foldlM processTrade initState := by
  unfold aggregate
  simp only [Option.bind_eq_bind, List.isEmpty_cons, Bool.false_eq_true,
    if_false]
  simp


set_option maxRecDepth 100000 in
/--
C9 counterexample: a batch of exactly 2^32 trade records (the worked
example followed by 2^32 − 1 inert filler trades) aggregates to a
committed trade count of 0 — the u32 counter wraps — while the win count
is 1, so the trade count does not equal the number of input records and
the win count exceeds the trade count.
-/
theorem C9_counterexample :
    (aggregate hugeBatch exFeat).map
      (fun s => (s.trade_count, s.win_count)) = some (0, 1) ∧
    hugeBatch.length = 2 ^ 32 := by
  constructor
  · show (aggregate (exTrade :: List.replicate (2 ^ 32 - 1) fillerTrade)
      exFeat).map (fun s => (s.trade_count, s.win_count)) = some (0, 1)
    have h3 : processTrade initState exTrade = some exAggSt := by decide
    have hagg : aggregate (exTrade :: List.replicate (2 ^ 32 - 1) fillerTrade)
        exFeat = List.foldlM processTrade exAggSt
          (List.replicate (2 ^ 32 - 1) fillerTrade) := by
      rw [aggregate_cons, List.foldlM_cons, h3]
      exact pure_bind exAggSt (fun init => List.foldlM processTrade init
        (List.replicate (2 ^ 32 - 1) fillerTrade))
    have hfold := foldlM_filler (2 ^ 32 - 1) exAggSt (by decide) (by decide)
      (by decide) (by decide) (by decide) (by decide) (by decide)
    rw [hagg, hfold, Option.map_some']
    show some (((1 + (2 ^ 32 - 1)) % 2 ^ 32 : Nat), (1 : Nat)) = some (0, 1)
    norm_num
  · show (exTrade :: List.replicate (2 ^ 32 - 1) fillerTrade).length = 2 ^ 32
    rw [List.length_cons, List.length_replicate]
    omega


set_option maxRecDepth 100000 in
/-- Witness for C9 on the single worked-example trade. -/
theorem C9_counts_witness :
    exAggSt.trade_count = [exTrade].length ∧
    exAggSt.win_count ≤ exAggSt.trade_count ∧
    exAggSt.win_count = [exTrade].countP
      (fun t => decide (0 < (tradePnlMicros t).getD 0)) :=
  C9_counts [exTrade] exFeat exAggSt (by norm_num) (by decide)

/-! ## Exact (wrap-free) aggregation -/

theorem foldlM_exact (l : List Trade) : ∀ st st' : AggState,
    l.foldlM processTrade st = some st' →
    (∀ t ∈ l, TradeFits t) →
    st.trade_count + l.length < 2 ^ 32 →
    st.win_count ≤ st.trade_count →
    st.total_collateral_micros +
      (l.map (fun t => parse_u128 t.collateral)).sum < 2 ^ 64 →
    st.total_pnl_micros.natAbs +
      (l.map (fun t => (exactTradePnl t).natAbs)).sum < 2 ^ 63 →
    st'.trade_count = st.trade_count + l.length ∧
    st'.total_collateral_micros = st.total_collateral_micros +
      (l.map (fun t => parse_u128 t.collateral)).sum ∧
    st'.total_pnl_micros = st.total_pnl_micros + (l.map exactTradePnl).sum ∧
    st'.win_count = st.win_count +
      l.countP (fun t => decide (0 < exactTradePnl t)) := by
  induction l with
  | nil =>
    intro st st' h _ _ _ _ _
    rw [List.foldlM_nil] at h
    obtain rfl : st = st' := by simpa using h
    simp
  | cons t rest ih =>
    intro st st' h hfits hcnt hw hcol hpnl
    rw [List.foldlM_cons] at h
    simp only [Option.bind_eq_bind, Option.bind_eq_some] at h
    obtain ⟨st₁, h1, h2⟩ := h
    obtain ⟨p, hp, e_cnt, e_win, e_pnl, e_col, _, _⟩ :=
      processTrade_some st t st₁ h1
    have hfit_t : TradeFits t := hfits t (List.mem_cons_self t rest)
    rw [tradePnlMicros_exact t hfit_t] at hp
    obtain rfl : p = exactTradePnl t := by simpa using hp.symm
    simp only [List.length_cons, List.map_cons, List.sum_cons,
      List.countP_cons] at hcnt hcol hpnl ⊢
    have hcnt1 : st₁.trade_count = st.trade_count + 1 := by
      rw [e_cnt, wrap32_eq_self]
      omega
    have hcol1 : st₁.total_collateral_micros =
        st.total_collateral_micros + parse_u128 t.collateral := by
      rw [e_col, wrap64_eq_self (parse_u128 t.collateral) (by omega),
        wrap64_eq_self]
      omega
    have habs_le : (st.total_pnl_micros + exactTradePnl t).natAbs ≤
        st.total_pnl_micros.natAbs + (exactTradePnl t).natAbs :=
      Int.natAbs_add_le _ _
    have hpnl1 : st₁.total_pnl_micros =
        st.total_pnl_micros + exactTradePnl t := by
      rw [e_pnl]
      have h63 : ((st.total_pnl_micros + exactTradePnl t).natAbs : Int)
          < 2 ^ 63 := by exact_mod_cast (by omega :
            (st.total_pnl_micros + exactTradePnl t).natAbs < 2 ^ 63)
      have hub : st.total_pnl_micros + exactTradePnl t < 2 ^ 63 :=
        lt_of_le_of_lt (Int.le_natAbs) h63
      have hlb : -(2 ^ 63 : Int) ≤ st.total_pnl_micros + exactTradePnl t := by
        have hn : -(((st.total_pnl_micros + exactTradePnl t).natAbs : Int)) ≤
            st.total_pnl_micros + exactTradePnl t := by
          rw [← Int.abs_eq_natAbs]
          exact neg_abs_le _
        linarith
      exact toI64_eq_self _ hlb hub
    have hwin1 : st₁.win_count =
        if 0 < exactTradePnl t then st.win_count + 1 else st.win_count := by
      rw [e_win]
      split_ifs with hpos
      · rw [wrap32_eq_self]
        omega
      · rfl
    have hw1 : st₁.win_count ≤ st₁.trade_count := by
      rw [hcnt1, hwin1]
      split_ifs <;> omega
    have habs1 : st₁.total_pnl_micros.natAbs ≤
        st.total_pnl_micros.natAbs + (exactTradePnl t).natAbs := by
      rw [hpnl1]
      exact habs_le
    obtain ⟨c1, c2, c3, c4⟩ := ih st₁ st' h2
      (fun x hx => hfits x (List.mem_cons_of_mem t hx))
      (by omega) hw1 (by omega) (by omega)
    refine ⟨?_, ?_, ?_, ?_⟩
    · rw [c1, hcnt1]
      omega
    · rw [c2, hcol1]
      omega
    · rw [c3, hpnl1]
      ring
    · rw [c4, hwin1]
      by_cases hpos : 0 < exactTradePnl t
      · rw [if_pos hpos, if_pos (by simpa using hpos)]
        omega
      · rw [if_neg hpos, if_neg (by simpa using hpos)]
        omega


set_option maxRecDepth 100000 in
/--
C8 counterexample: a batch of two trades whose collateral strings both
parse to u64::MAX makes the running collateral addition wrap: the
committed total collateral is 2^64 − 2 while the exact sum of the parsed
collaterals is 2^65 − 2, so the committed financial result is corrupted by
wraparound on this input.
-/
theorem C8_counterexample :
    (aggregate [bigCollTrade, bigCollTrade] exFeat).map
      (fun s => s.total_collateral_micros) = some (2 ^ 64 - 2) ∧
    parse_u128 bigCollTrade.collateral + parse_u128 bigCollTrade.collateral
      = 2 ^ 65 - 2 ∧
    (2 ^ 64 - 2 : Nat) ≠ 2 ^ 65 - 2 :=
  ⟨by decide, by decide, by decide⟩

set_option maxRecDepth 100000 in
/--
C8 (amended): for every input batch whose parsed values fit their machine
types — every trade satisfies `TradeFits`, fewer than 2^32 records, the
exact collateral sum below 2^64, and the exact absolute PnL sum below
2^63 — no wraparound is observable anywhere in the aggregation path: the
committed trade count, total collateral, total PnL and win count all equal
their exact unbounded-integer counterparts.
-/
theorem C8_no_overflow (trades : List Trade) (f : FeaturedPosition)
    (st : AggState)
    (hfits : ∀ t ∈ trades, TradeFits t)
    (hlen : trades.length < 2 ^ 32)
    (hcoll : (trades.map (fun t => parse_u128 t.collateral)).sum < 2 ^ 64)
    (hpnl : (trades.map (fun t => (exactTradePnl t).natAbs)).sum < 2 ^ 63)
    (hrun : aggregate trades f = some st) :
    st.trade_count = trades.length ∧
    st.total_collateral_micros =
      (trades.map (fun t => parse_u128 t.collateral)).sum ∧
    st.total_pnl_micros = (trades.map exactTradePnl).sum ∧
    st.win_count = trades.countP (fun t => decide (0 < exactTradePnl t)) := by
  unfold aggregate at hrun
  simp only [Option.bind_eq_bind, Option.bind_eq_some] at hrun
  obtain ⟨st₁, hfold, hrest⟩ := hrun
  obtain ⟨c1, c2, c3, c4⟩ := foldlM_exact trades initState st₁ hfold hfits
    (by simpa [initState] using hlen) (by norm_num [initState])
    (by simpa [initState] using hcoll) (by simpa [initState] using hpnl)
  have hproj : st.trade_count = st₁.trade_count ∧
      st.total_collateral_micros = st₁.total_collateral_micros ∧
      st.total_pnl_micros = st₁.total_pnl_micros ∧
      st.win_count = st₁.win_count := by
    by_cases he : trades.isEmpty
    · rw [if_pos he] at hrest
      simp only [Option.bind_eq_bind, Option.bind_eq_some] at hrest
      obtain ⟨tb, htb, hrest⟩ := hrest
      obtain rfl : _ = st := by simpa using hrest
      exact ⟨rfl, rfl, rfl, rfl⟩
    · rw [if_neg he] at hrest
      obtain rfl : st₁ = st := by simpa using hrest
      exact ⟨rfl, rfl, rfl, rfl⟩
  refine ⟨?_, ?_, ?_, ?_⟩
  · rw [hproj.1, c1]
    simp [initState]
  · rw [hproj.2.1, c2]
    simp [initState]
  · rw [hproj.2.2.1, c3]
    simp [initState]
  · rw [hproj.2.2.2, c4]
    simp [initState]

set_option maxRecDepth 100000 in
/-- Witness for C8 on the single worked-example trade. -/
theorem C8_no_overflow_witness :
    exAggSt.trade_count = [exTrade].length ∧
    exAggSt.total_collateral_micros =
      ([exTrade].map (fun t => parse_u128 t.collateral)).sum ∧
    exAggSt.total_pnl_micros = ([exTrade].map exactTradePnl).sum ∧
    exAggSt.win_count = [exTrade].countP
      (fun t => decide (0 < exactTradePnl t)) :=
  C8_no_overflow [exTrade] exFeat exAggSt (by decide) (by norm_num)
    (by decide) (by decide) (by decide)

end Ostium
